import Mathlib

/-!
Shallow embedding of the items HTTP server (in-memory backend `server.ts`
and SQLite backend `server.sql.ts`) and proofs of its specification
properties.

Modelling conventions:
* JS strings are Lean `String`s; `.length` is the character count (the
  inputs considered here are ASCII, where JS UTF-16 code-unit length
  agrees with the codepoint count).
* JS `parseInt` (no radix argument), `String.prototype.trim` and
  `String.prototype.split("/")` are modelled by `jsParseInt`, `jsTrim`
  and `splitSlash` below, following the ECMAScript semantics.
* A parsed JSON document is a `Json` value; a raw request body is a
  `ReqBody`: the empty string (falsy in JS, so never parsed), a string on
  which `JSON.parse` throws a `SyntaxError`, or a string parsing to a
  `Json` value.
* Every non-OPTIONS response of both servers carries the same constant
  CORS headers and, via `writeHead(status, {"Content-Type":
  "application/json"})`, the same content type; a response is therefore
  observationally a status code plus an optional JSON body (`Resp`).
-/

namespace ItemsServer

/-- JSON values as produced by `JSON.parse`. Numbers are modelled as
integers (the only numbers relevant to the spec's claims); object fields
are the key/value pairs after `JSON.parse` duplicate-key resolution, so
keys are assumed distinct. -/
inductive Json where
  | null : Json
  | bool (b : Bool) : Json
  | num (n : Int) : Json
  | str (s : String) : Json
  | arr (xs : List Json) : Json
  | obj (fields : List (String × Json)) : Json

/-- JS truthiness of a parsed JSON value: `null`, `false`, `0` and `""`
are falsy; every object and array is truthy. -/
def truthy : Json → Bool
  | .null => false
  | .bool b => b
  | .num n => n != 0
  | .str s => s != ""
  | .arr _ => true
  | .obj _ => true

/-- Property access `j.k` on a parsed JSON value: defined (`some`) only
when `j` is an object with field `k`; on every other value the access
yields `undefined` (`none`). -/
def getField (j : Json) (k : String) : Option Json :=
  match j with
  | .obj fields => (fields.find? (fun f => f.1 == k)).map (fun f => f.2)
  | _ => none

/-- JS truthiness of a possibly-undefined value (`undefined` is falsy). -/
def jsFalsy : Option Json → Bool
  | none => true
  | some v => !truthy v

/-- Whether a possibly-undefined value is a JS string
(`typeof x === "string"`). -/
def isStringVal : Option Json → Bool
  | some (.str _) => true
  | _ => false

/-- The string payload of a value known to be a JSON string (defaults to
`""`; only used under an `isStringVal` guard or after validation). -/
def strOf : Option Json → String
  | some (.str s) => s
  | _ => ""

/-- Model of `String.prototype.trim`: drop whitespace from both ends. -/
def jsTrim (s : String) : String :=
  ⟨((s.data.dropWhile Char.isWhitespace).reverse.dropWhile Char.isWhitespace).reverse⟩

/-- Numeric value of a list of decimal digit characters. -/
def decValue (l : List Char) : Nat :=
  l.foldl (fun a c => a * 10 + (c.toNat - 48)) 0

/-- Value of one hexadecimal digit character. -/
def hexDigitVal (c : Char) : Nat :=
  if c.isDigit then c.toNat - 48
  else if 'a' ≤ c then c.toNat - 87
  else c.toNat - 55

/-- Numeric value of a list of hexadecimal digit characters. -/
def hexValue (l : List Char) : Nat :=
  l.foldl (fun a c => a * 16 + hexDigitVal c) 0

/-- Hexadecimal digit test for the `0x` branch of `parseInt`. -/
def isHexDigitChar (c : Char) : Bool :=
  c.isDigit || ('a' ≤ c && c ≤ 'f') || ('A' ≤ c && c ≤ 'F')

/-- Core of `parseInt` after whitespace and sign: an optional `0x`/`0X`
prefix selects hexadecimal, otherwise the longest prefix of decimal
digits is taken; no digits means `NaN` (`none`). -/
def parseIntCore : List Char → Option Nat
  | '0' :: 'x' :: rest =>
      let digits := rest.takeWhile isHexDigitChar
      if digits.isEmpty then none else some (hexValue digits)
  | '0' :: 'X' :: rest =>
      let digits := rest.takeWhile isHexDigitChar
      if digits.isEmpty then none else some (hexValue digits)
  | l =>
      let digits := l.takeWhile Char.isDigit
      if digits.isEmpty then none else some (decValue digits)

/-- Model of JS `parseInt(s)` with no radix argument: skip leading
whitespace, read an optional sign, then `parseIntCore`; `none` stands for
`NaN`. Trailing non-digit characters are ignored, so `parseInt("12abc")`
is `12`, while `parseInt("abc")` and `parseInt("")` are `NaN`. -/
def jsParseInt (s : String) : Option Int :=
  match s.data.dropWhile Char.isWhitespace with
  | '-' :: rest => (parseIntCore rest).map (fun n => -(n : Int))
  | '+' :: rest => (parseIntCore rest).map (fun n => (n : Int))
  | l => (parseIntCore l).map (fun n => (n : Int))

/-- Helper for `splitSlash`: `acc` holds the current segment reversed. -/
def splitSlashAux : List Char → List Char → List String
  | [], acc => [⟨acc.reverse⟩]
  | c :: cs, acc =>
      if c = '/' then ⟨acc.reverse⟩ :: splitSlashAux cs []
      else splitSlashAux cs (c :: acc)

/-- Model of JS `path.split("/")`. -/
def splitSlash (s : String) : List String :=
  splitSlashAux s.data []

/-- The `[2]` element of `path.split("/")`, as used by all id routes;
out-of-range access gives `undefined`, on which `parseInt` is `NaN`, so
defaulting to `""` (also `NaN` under `jsParseInt`) is faithful. -/
def seg2 (path : String) : String :=
  (splitSlash path).getD 2 ""

/-- Model of `path.startsWith("/items/")`. -/
def startsWithItems (path : String) : Bool :=
  "/items/".data.isPrefixOf path.data

/-- A stored item. -/
structure Item where
  id : Int
  name : String
  description : String
deriving DecidableEq, Repr

/-- Result of `validateItemInput`. -/
structure ValidationResult where
  isValid : Bool
  errors : List String
deriving DecidableEq, Repr

/-- The `validateItemInput` helper, identical in both servers. `data` is
the parsed request body (`none` = `undefined` for an empty body). The
four error checks run in source order; the initial `if (!data)` is JS
falsiness, so it also fires on bodies that are `null`, `false`, `0` or
`""`. The length checks use the untrimmed `.length` of the fields. -/
def validateItemInput (data : Option Json) : ValidationResult :=
  if jsFalsy data then
    { isValid := false, errors := ["Request body is required"] }
  else
    let nameF := getField ((data.getD .null)) "name"
    let descF := getField ((data.getD .null)) "description"
    let e1 : List String :=
      if jsFalsy nameF || !isStringVal nameF || (jsTrim (strOf nameF)).length == 0 then
        ["Name is required and must be a non-empty string"]
      else []
    let e2 : List String :=
      if jsFalsy descF || !isStringVal descF || (jsTrim (strOf descF)).length == 0 then
        ["Description is required and must be a non-empty string"]
      else []
    let e3 : List String :=
      if !jsFalsy nameF && isStringVal nameF && (strOf nameF).length > 100 then
        ["Name must be 100 characters or less"]
      else []
    let e4 : List String :=
      if !jsFalsy descF && isStringVal descF && (strOf descF).length > 500 then
        ["Description must be 500 characters or less"]
      else []
    let errors := e1 ++ e2 ++ e3 ++ e4
    { isValid := errors.isEmpty, errors := errors }

/-- A raw request body, classified by what `body ? JSON.parse(body) :
undefined` does with it. -/
inductive ReqBody where
  | empty : ReqBody
  | malformed : ReqBody
  | json (j : Json) : ReqBody

/-- Evaluation of `body ? JSON.parse(body) : undefined`: an empty body is
falsy and yields `undefined`; otherwise `JSON.parse` either throws a
`SyntaxError` (`Except.error`) or returns a value. -/
def parseBody : ReqBody → Except Unit (Option Json)
  | .empty => .ok none
  | .malformed => .error ()
  | .json j => .ok (some j)

/-- An HTTP request as far as the handlers observe it: method, pathname
(query string already stripped by `url.parse`), and body. -/
structure Request where
  method : String
  path : String
  body : ReqBody

/-- An observable response. Every response of both servers carries the
same constant CORS headers; every `.json` response additionally carries
`Content-Type: application/json`, so status plus JSON body determines
the response. `.noBody` is the header-only OPTIONS reply. -/
inductive Resp where
  | json (status : Nat) (body : Json) : Resp
  | noBody (status : Nat) : Resp

/-- Serialization of an item, with the key order used by both servers. -/
def itemToJson (i : Item) : Json :=
  .obj [("id", .num i.id), ("name", .str i.name), ("description", .str i.description)]

/-- A `{error: msg}` body. -/
def errJson (msg : String) : Json :=
  .obj [("error", .str msg)]

/-- A `{error: "Validation failed", details: [...]}` body. -/
def validationJson (errors : List String) : Json :=
  .obj [("error", .str "Validation failed"), ("details", .arr (errors.map .str))]

/-- A `{message: "Item deleted", item: ...}` body. -/
def deletedJson (i : Item) : Json :=
  .obj [("message", .str "Item deleted"), ("item", itemToJson i)]

/-- Field read `data.name` / `data.description` as a string; evaluated by
the handlers only after validation, which guarantees the field is a
non-empty JSON string. -/
def fieldStr (data : Option Json) (k : String) : String :=
  strOf (getField (data.getD .null) k)

/-- State of the in-memory server: module-level `items` and `nextId`. -/
structure MemState where
  items : List Item
  nextId : Int
deriving DecidableEq, Repr

/-- Initial module state of the in-memory server. -/
def memInit : MemState := { items := [], nextId := 1 }

/-- The in-memory `resetMyServerData`: `items = []; nextId = 1`. -/
def resetMyServerData (_ : MemState) : MemState := memInit

/-- The in-memory request handler (`createMyServer` in `server.ts`),
with route tests in source order. -/
def handleMem (req : Request) (s : MemState) : Resp × MemState :=
  if req.method == "OPTIONS" then
    (.noBody 200, s)
  else if req.method == "GET" && req.path == "/items" then
    (.json 200 (.arr (s.items.map itemToJson)), s)
  else if req.method == "GET" && startsWithItems req.path then
    match jsParseInt (seg2 req.path) with
    | none => (.json 400 (errJson "Invalid item ID"), s)
    | some id =>
      match s.items.find? (fun i => i.id == id) with
      | some item => (.json 200 (itemToJson item), s)
      | none => (.json 404 (errJson "Item not found"), s)
  else if req.method == "POST" && req.path == "/items" then
    match parseBody req.body with
    | .error _ => (.json 400 (errJson "Invalid JSON"), s)
    | .ok data =>
      let v := validateItemInput data
      if !v.isValid then
        (.json 400 (validationJson v.errors), s)
      else
        let newItem : Item :=
          { id := s.nextId
            name := jsTrim (fieldStr data "name")
            description := jsTrim (fieldStr data "description") }
        (.json 201 (itemToJson newItem),
         { items := s.items ++ [newItem], nextId := s.nextId + 1 })
  else if req.method == "PUT" && startsWithItems req.path then
    match jsParseInt (seg2 req.path) with
    | none => (.json 400 (errJson "Invalid item ID"), s)
    | some id =>
      match s.items.findIdx? (fun i => i.id == id) with
      | none => (.json 404 (errJson "Item not found"), s)
      | some idx =>
        match parseBody req.body with
        | .error _ => (.json 400 (errJson "Invalid JSON"), s)
        | .ok data =>
          let v := validateItemInput data
          if !v.isValid then
            (.json 400 (validationJson v.errors), s)
          else
            let upd : Item :=
              { id := id
                name := jsTrim (fieldStr data "name")
                description := jsTrim (fieldStr data "description") }
            (.json 200 (itemToJson upd),
             { items := s.items.set idx upd, nextId := s.nextId })
  else if req.method == "DELETE" && startsWithItems req.path then
    match jsParseInt (seg2 req.path) with
    | none => (.json 400 (errJson "Invalid item ID"), s)
    | some id =>
      match s.items.findIdx? (fun i => i.id == id) with
      | none => (.json 404 (errJson "Item not found"), s)
      | some idx =>
        let deleted := (s.items.get? idx).getD { id := 0, name := "", description := "" }
        (.json 200 (deletedJson deleted),
         { items := s.items.eraseIdx idx, nextId := s.nextId })
  else
    (.json 404 (errJson "Not found"), s)

/-- Final state after a sequence of requests against the in-memory
server, starting from `s`. -/
def runMemFrom (s : MemState) : List Request → MemState
  | [] => s
  | r :: rs => runMemFrom (handleMem r s).2 rs

/-- Final state after a sequence of requests from the initial state. -/
def runMem (reqs : List Request) : MemState :=
  runMemFrom memInit reqs

/-- Response trace of the in-memory server on a request sequence. -/
def traceMem (s : MemState) : List Request → List Resp
  | [] => []
  | r :: rs => (handleMem r s).1 :: traceMem (handleMem r s).2 rs

/-- State of the SQLite-backed server: the `items` table rows in rowid
(insertion) order, plus the `sqlite_sequence` counter for the
AUTOINCREMENT column (`0` when the table has never been inserted into). -/
structure SqlState where
  rows : List Item
  seq : Int
deriving DecidableEq, Repr

/-- Initial state: table created empty by `initDatabase`. -/
def sqlInit : SqlState := { rows := [], seq := 0 }

/-- Insertion of an item into a list sorted by ascending id. -/
def insertById (i : Item) : List Item → List Item
  | [] => [i]
  | j :: js => if i.id ≤ j.id then i :: j :: js else j :: insertById i js

/-- Sorting by ascending id, as `ORDER BY id` produces. -/
def sortById (l : List Item) : List Item :=
  l.foldr insertById []

/-- Largest rowid present in the table (`0` when empty). -/
def maxRowId (l : List Item) : Int :=
  l.foldr (fun i a => max i.id a) 0

/-- Statement `SELECT * FROM items ORDER BY id`. -/
def sqlSelectAll (q : SqlState) : List Item :=
  sortById q.rows

/-- Statement `SELECT * FROM items WHERE id = ?`. -/
def sqlSelectById (q : SqlState) (id : Int) : Option Item :=
  q.rows.find? (fun i => i.id == id)

/-- Statement `INSERT INTO items (name, description) VALUES (?, ?)` on an
AUTOINCREMENT primary key: the fresh rowid is one more than the larger of
the stored sequence value and the largest rowid in the table, and the
sequence is updated to it; `lastInsertRowid` is the fresh rowid. -/
def sqlInsert (q : SqlState) (name description : String) : Item × SqlState :=
  let newId := max q.seq (maxRowId q.rows) + 1
  let row : Item := { id := newId, name := name, description := description }
  (row, { rows := q.rows ++ [row], seq := newId })

/-- Statement `UPDATE items SET name = ?, description = ? WHERE id = ?`. -/
def sqlUpdate (q : SqlState) (id : Int) (name description : String) : SqlState :=
  { rows := q.rows.map (fun r => if r.id == id then { id := r.id, name := name, description := description } else r)
    seq := q.seq }

/-- Statement `DELETE FROM items WHERE id = ?`. -/
def sqlDeleteById (q : SqlState) (id : Int) : SqlState :=
  { rows := q.rows.filter (fun r => !(r.id == id)), seq := q.seq }

/-- The SQLite `resetMyServerData`: `DELETE FROM items` plus clearing the
`sqlite_sequence` row for `items`. -/
def resetSqlServerData (_ : SqlState) : SqlState := sqlInit

/-- The SQLite-backed request handler (`createMyServer` in
`server.sql.ts`), with route tests in source order; database errors are
assumed not to occur, so the `catch` branches returning 500 are absent. -/
def handleSql (req : Request) (q : SqlState) : Resp × SqlState :=
  if req.method == "OPTIONS" then
    (.noBody 200, q)
  else if req.method == "GET" && req.path == "/items" then
    (.json 200 (.arr ((sqlSelectAll q).map itemToJson)), q)
  else if req.method == "GET" && startsWithItems req.path then
    match jsParseInt (seg2 req.path) with
    | none => (.json 400 (errJson "Invalid item ID"), q)
    | some id =>
      match sqlSelectById q id with
      | some item => (.json 200 (itemToJson item), q)
      | none => (.json 404 (errJson "Item not found"), q)
  else if req.method == "POST" && req.path == "/items" then
    match parseBody req.body with
    | .error _ => (.json 400 (errJson "Invalid JSON"), q)
    | .ok data =>
      let v := validateItemInput data
      if !v.isValid then
        (.json 400 (validationJson v.errors), q)
      else
        let n := jsTrim (fieldStr data "name")
        let d := jsTrim (fieldStr data "description")
        let res := sqlInsert q n d
        let newItem : Item := { id := res.1.id, name := n, description := d }
        (.json 201 (itemToJson newItem), res.2)
  else if req.method == "PUT" && startsWithItems req.path then
    match jsParseInt (seg2 req.path) with
    | none => (.json 400 (errJson "Invalid item ID"), q)
    | some id =>
      match sqlSelectById q id with
      | none => (.json 404 (errJson "Item not found"), q)
      | some _ =>
        match parseBody req.body with
        | .error _ => (.json 400 (errJson "Invalid JSON"), q)
        | .ok data =>
          let v := validateItemInput data
          if !v.isValid then
            (.json 400 (validationJson v.errors), q)
          else
            let n := jsTrim (fieldStr data "name")
            let d := jsTrim (fieldStr data "description")
            let updatedItem : Item := { id := id, name := n, description := d }
            (.json 200 (itemToJson updatedItem), sqlUpdate q id n d)
  else if req.method == "DELETE" && startsWithItems req.path then
    match jsParseInt (seg2 req.path) with
    | none => (.json 400 (errJson "Invalid item ID"), q)
    | some id =>
      match sqlSelectById q id with
      | some item => (.json 200 (deletedJson item), sqlDeleteById q id)
      | none => (.json 404 (errJson "Item not found"), q)
  else
    (.json 404 (errJson "Not found"), q)

/-- Final state after a sequence of requests against the SQLite server. -/
def runSqlFrom (q : SqlState) : List Request → SqlState
  | [] => q
  | r :: rs => runSqlFrom (handleSql r q).2 rs

/-- Response trace of the SQLite server on a request sequence. -/
def traceSql (q : SqlState) : List Request → List Resp
  | [] => []
  | r :: rs => (handleSql r q).1 :: traceSql (handleSql r q).2 rs

/-- Decimal digits of a positive number, most significant first; `fuel`
bounds the recursion depth (`fuel ≥ n` suffices). -/
def natDigitsAux : Nat → Nat → List Char
  | 0, _ => []
  | _ + 1, 0 => []
  | fuel + 1, n => natDigitsAux fuel (n / 10) ++ [Char.ofNat (48 + n % 10)]

/-- Decimal representation of a natural number, as JS number-to-string
conversion produces for non-negative integers. -/
def natRepr (n : Nat) : String :=
  if n = 0 then "0" else ⟨natDigitsAux n n⟩

/-- Decimal representation of an integer. -/
def intRepr (i : Int) : String :=
  if i < 0 then "-" ++ natRepr (-i).toNat else natRepr i.toNat

/-- Status code of a response. -/
def respStatus : Resp → Nat
  | .json s _ => s
  | .noBody s => s

/-- The id assigned by a response, read off the observable wire format: a
201 response's JSON body has the fresh id as its first field. Empty for
every other response. -/
def createdIdOf : Resp → List Int
  | .json 201 (.obj (("id", .num i) :: _)) => [i]
  | _ => []

/-- All ids handed out by 201 responses along a request sequence run
against the in-memory server from state `s`. -/
def createdIds (s : MemState) : List Request → List Int
  | [] => []
  | r :: rs => createdIdOf (handleMem r s).1 ++ createdIds (handleMem r s).2 rs

/-- Strict ordering of items by id. -/
def idLt (a b : Item) : Prop := a.id < b.id

/-- Invariant of the in-memory store: items are listed in strictly
increasing id order (creation order), every id is positive and below the
counter, and the counter is at least 1. -/
def goodMem (s : MemState) : Prop :=
  List.Chain' idLt s.items ∧ (∀ i ∈ s.items, 1 ≤ i.id ∧ i.id < s.nextId) ∧ 1 ≤ s.nextId

/-- Simulation relation between the in-memory state and the SQLite
state: same rows in the same order, and the AUTOINCREMENT sequence is one
behind the in-memory counter. -/
def SimRel (s : MemState) (q : SqlState) : Prop :=
  q.rows = s.items ∧ q.seq = s.nextId - 1

instance : IsTrans Item idLt :=
  ⟨fun _ _ _ h1 h2 => lt_trans h1 h2⟩

/-! ### Character and digit facts -/

theorem digitChar_isDigit {k : Nat} (hk : k < 10) :
    (Char.ofNat (48 + k)).isDigit = true := by
  interval_cases k <;> decide

theorem digitChar_toNat {k : Nat} (hk : k < 10) :
    (Char.ofNat (48 + k)).toNat = 48 + k := by
  interval_cases k <;> decide

theorem isDigit_char_ne {c : Char} (h : c.isDigit = true) :
    c.isWhitespace = false ∧ c ≠ '-' ∧ c ≠ '+' ∧ c ≠ 'x' ∧ c ≠ 'X' ∧ c ≠ '/' := by
  refine ⟨?_, ?_, ?_, ?_, ?_, ?_⟩
  · by_contra hw
    rw [Bool.not_eq_false] at hw
    have hc : c = ' ' ∨ c = '\t' ∨ c = '\r' ∨ c = '\n' := by
      simpa [Char.isWhitespace, or_assoc] using hw
    rcases hc with rfl | rfl | rfl | rfl <;> exact absurd h (by decide)
  all_goals intro hc; rw [hc] at h; exact absurd h (by decide)

theorem natDigitsAux_zero (fuel : Nat) : natDigitsAux fuel 0 = [] := by
  cases fuel <;> rfl

theorem decValue_append (l : List Char) (c : Char) :
    decValue (l ++ [c]) = decValue l * 10 + (c.toNat - 48) := by
  simp [decValue, List.foldl_append]

theorem natDigitsAux_spec (fuel : Nat) : ∀ n, 0 < n → n ≤ fuel →
    (∀ c ∈ natDigitsAux fuel n, c.isDigit = true) ∧
    decValue (natDigitsAux fuel n) = n ∧ natDigitsAux fuel n ≠ [] := by
  induction fuel with
  | zero => intro n hn hle; omega
  | succ fuel ih =>
    intro n hn hle
    obtain ⟨m, rfl⟩ : ∃ m, n = m + 1 := ⟨n - 1, by omega⟩
    have heq : natDigitsAux (fuel + 1) (m + 1)
        = natDigitsAux fuel ((m + 1) / 10) ++ [Char.ofNat (48 + (m + 1) % 10)] := rfl
    have hmod : (m + 1) % 10 < 10 := Nat.mod_lt _ (by omega)
    by_cases hq : (m + 1) / 10 = 0
    · have hsmall : m + 1 < 10 := by omega
      rw [heq, hq, natDigitsAux_zero, List.nil_append]
      refine ⟨?_, ?_, by simp⟩
      · intro c hc
        rw [List.mem_singleton] at hc
        rw [hc]
        exact digitChar_isDigit hmod
      · have hv : decValue [Char.ofNat (48 + (m + 1) % 10)]
            = (Char.ofNat (48 + (m + 1) % 10)).toNat - 48 := by
          simp [decValue]
        rw [hv, digitChar_toNat hmod]
        omega
    · have hq' : 0 < (m + 1) / 10 := Nat.pos_of_ne_zero hq
      have hle' : (m + 1) / 10 ≤ fuel := by
        have : (m + 1) / 10 < m + 1 := Nat.div_lt_self (by omega) (by omega)
        omega
      obtain ⟨hdig, hval, _⟩ := ih ((m + 1) / 10) hq' hle'
      rw [heq]
      refine ⟨?_, ?_, by simp⟩
      · intro c hc
        rcases List.mem_append.mp hc with hc | hc
        · exact hdig c hc
        · rw [List.mem_singleton] at hc
          rw [hc]
          exact digitChar_isDigit hmod
      · rw [decValue_append, hval, digitChar_toNat hmod]
        omega

theorem natRepr_digits (n : Nat) :
    (∀ c ∈ (natRepr n).data, c.isDigit = true) ∧ (natRepr n).data ≠ [] := by
  by_cases h : n = 0
  · subst h
    exact ⟨by decide, by decide⟩
  · have := natDigitsAux_spec n n (Nat.pos_of_ne_zero h) le_rfl
    rw [natRepr, if_neg h]
    exact ⟨this.1, this.2.2⟩

theorem decValue_natRepr (n : Nat) : decValue (natRepr n).data = n := by
  by_cases h : n = 0
  · subst h; decide
  · have := natDigitsAux_spec n n (Nat.pos_of_ne_zero h) le_rfl
    rw [natRepr, if_neg h]
    exact this.2.1

theorem parseIntCore_digits {l : List Char} (hd : ∀ c ∈ l, c.isDigit = true)
    (hne : l ≠ []) : parseIntCore l = some (decValue l) := by
  unfold parseIntCore
  split
  · exfalso
    have hx : ('x' : Char).isDigit = true := hd 'x' (by simp)
    exact absurd hx (by decide)
  · exfalso
    have hx : ('X' : Char).isDigit = true := hd 'X' (by simp)
    exact absurd hx (by decide)
  · rw [List.takeWhile_eq_self_iff.mpr hd]
    cases l with
    | nil => exact absurd rfl hne
    | cons c cs => simp

theorem jsParseInt_natRepr (n : Nat) : jsParseInt (natRepr n) = some (n : Int) := by
  obtain ⟨hd, hne⟩ := natRepr_digits n
  unfold jsParseInt
  have hdw : (natRepr n).data.dropWhile Char.isWhitespace = (natRepr n).data := by
    cases hl : (natRepr n).data with
    | nil => simp
    | cons c cs =>
      have hdc : c.isDigit = true := hd c (by rw [hl]; exact List.mem_cons_self c cs)
      simp [List.dropWhile_cons, (isDigit_char_ne hdc).1]
  rw [hdw]
  split
  · next rest heq =>
    exfalso
    have hdc : ('-' : Char).isDigit = true := hd '-' (by rw [heq]; simp)
    exact absurd hdc (by decide)
  · next rest heq =>
    exfalso
    have hdc : ('+' : Char).isDigit = true := hd '+' (by rw [heq]; simp)
    exact absurd hdc (by decide)
  · rw [parseIntCore_digits hd hne, decValue_natRepr]
    rfl

theorem jsParseInt_intRepr {i : Int} (h : 0 ≤ i) : jsParseInt (intRepr i) = some i := by
  rw [intRepr, if_neg (not_lt.mpr h), jsParseInt_natRepr, Int.toNat_of_nonneg h]

/-! ### Path splitting facts -/

theorem splitSlashAux_head (l : List Char) : ∀ acc, ∃ rest,
    splitSlashAux l acc = ⟨acc.reverse ++ l.takeWhile (fun c => !(c == '/'))⟩ :: rest := by
  induction l with
  | nil => intro acc; exact ⟨[], by simp [splitSlashAux]⟩
  | cons c cs ih =>
    intro acc
    by_cases hc : c = '/'
    · subst hc
      refine ⟨splitSlashAux cs [], ?_⟩
      simp [splitSlashAux, List.takeWhile_cons]
    · obtain ⟨rest, hrest⟩ := ih (c :: acc)
      refine ⟨rest, ?_⟩
      rw [splitSlashAux, if_neg hc, hrest]
      simp [List.takeWhile_cons, hc]

theorem splitSlashAux_items (t : List Char) :
    splitSlashAux ('/' :: 'i' :: 't' :: 'e' :: 'm' :: 's' :: '/' :: t) []
      = "" :: "items" :: splitSlashAux t [] := by
  simp [splitSlashAux]

theorem startsWithItems_iff (p : String) :
    startsWithItems p = true ↔
      ∃ t, p.data = '/' :: 'i' :: 't' :: 'e' :: 'm' :: 's' :: '/' :: t := by
  rw [startsWithItems, List.isPrefixOf_iff_prefix]
  constructor
  · rintro ⟨t, ht⟩
    exact ⟨t, ht.symm⟩
  · rintro ⟨t, ht⟩
    exact ⟨t, ht.symm⟩

theorem seg2_eq_takeWhile {p : String} {t : List Char}
    (h : p.data = '/' :: 'i' :: 't' :: 'e' :: 'm' :: 's' :: '/' :: t) :
    seg2 p = ⟨t.takeWhile (fun c => !(c == '/'))⟩ := by
  obtain ⟨rest, hrest⟩ := splitSlashAux_head t []
  rw [seg2, splitSlash, h, splitSlashAux_items, hrest]
  simp

theorem seg2_no_slash {p : String} (h : startsWithItems p = true) :
    ∀ c ∈ (seg2 p).data, (c == '/') = false := by
  obtain ⟨t, ht⟩ := (startsWithItems_iff p).mp h
  rw [seg2_eq_takeWhile ht]
  intro c hc
  have := List.mem_takeWhile_imp hc
  simpa using this

theorem seg2_append {s2 : String} (h : ∀ c ∈ s2.data, (c == '/') = false) :
    seg2 ("/items/" ++ s2) = s2 ∧ startsWithItems ("/items/" ++ s2) = true := by
  have hdata : ("/items/" ++ s2).data
      = '/' :: 'i' :: 't' :: 'e' :: 'm' :: 's' :: '/' :: s2.data := by
    rw [String.data_append]
    rfl
  constructor
  · rw [seg2_eq_takeWhile hdata]
    have : s2.data.takeWhile (fun c => !(c == '/')) = s2.data := by
      rw [List.takeWhile_eq_self_iff]
      intro c hc
      simp [h c hc]
    rw [this]
  · exact (startsWithItems_iff _).mpr ⟨s2.data, hdata⟩

theorem startsWithItems_ne_items {p : String} (h : startsWithItems p = true) :
    (p == "/items") = false := by
  obtain ⟨t, ht⟩ := (startsWithItems_iff p).mp h
  rw [beq_eq_false_iff_ne]
  intro hp
  rw [hp] at ht
  exact absurd (congrArg List.length ht) (by simp)

/-! ### List bridging facts (findIndex, splice, in-place update) -/

theorem findIdx?_zero_cons {α : Type} (p : α → Bool) (x : α) (xs : List α) :
    List.findIdx? p (x :: xs) = if p x then some 0 else (List.findIdx? p xs).map (· + 1) := by
  rw [List.findIdx?_cons]
  by_cases h : p x <;> simp [h, List.findIdx?_succ]

theorem findIdx?_none_iff {α : Type} (p : α → Bool) (l : List α) :
    List.findIdx? p l = none ↔ l.find? p = none := by
  induction l with
  | nil => simp
  | cons x xs ih =>
    rw [findIdx?_zero_cons, List.find?_cons]
    by_cases h : p x <;> simp [h, ih]

theorem findIdx?_some_spec {α : Type} (p : α → Bool) (l : List α) : ∀ i,
    List.findIdx? p l = some i →
      ∃ a, l.get? i = some a ∧ l.find? p = some a ∧ p a = true := by
  induction l with
  | nil => simp
  | cons x xs ih =>
    intro i hi
    rw [findIdx?_zero_cons] at hi
    by_cases h : p x
    · rw [if_pos h] at hi
      obtain rfl : (0 : Nat) = i := Option.some_injective _ hi
      exact ⟨x, rfl, by simp [List.find?_cons, h], h⟩
    · rw [if_neg h] at hi
      obtain ⟨j, hj, rfl⟩ := Option.map_eq_some'.mp hi
      obtain ⟨a, h1, h2, h3⟩ := ih j hj
      refine ⟨a, by simpa using h1, ?_, h3⟩
      rw [List.find?_cons_of_neg _ h]
      exact h2

theorem eraseIdx_of_findIdx? {α : Type} (p : α → Bool) (l : List α) : ∀ i,
    List.findIdx? p l = some i → l.eraseIdx i = l.eraseP p := by
  induction l with
  | nil => simp
  | cons x xs ih =>
    intro i hi
    rw [findIdx?_zero_cons] at hi
    by_cases h : p x
    · rw [if_pos h] at hi
      obtain rfl : (0 : Nat) = i := Option.some_injective _ hi
      simp [List.eraseP_cons, h]
    · rw [if_neg h] at hi
      obtain ⟨j, hj, rfl⟩ := Option.map_eq_some'.mp hi
      simp [List.eraseP_cons, h, List.eraseIdx]
      exact ih j hj

theorem eraseP_eq_filter_of_unique {α : Type} (p : α → Bool) (l : List α)
    (hp : List.Pairwise (fun a b => p a = true → p b = false) l) :
    l.eraseP p = l.filter (fun a => !p a) := by
  induction l with
  | nil => simp
  | cons x xs ih =>
    rw [List.pairwise_cons] at hp
    by_cases h : p x
    · rw [List.eraseP_cons, h]
      have : xs.filter (fun a => !p a) = xs := by
        rw [List.filter_eq_self]
        intro a ha
        simp [hp.1 a ha h]
      simp [List.filter_cons, h, this]
    · have hb : p x = false := by simpa using h
      rw [List.eraseP_cons, hb]
      simp only [cond_false]
      rw [List.filter_cons]
      simp only [hb, Bool.not_false, if_pos]
      rw [ih hp.2]

theorem set_of_findIdx? (l : List Item) (id : Int) (v : Item) (hv : v.id = id)
    (hp : List.Pairwise (fun a b : Item => a.id ≠ b.id) l) : ∀ i,
    List.findIdx? (fun it => it.id == id) l = some i →
      l.set i v = l.map (fun r =>
        if r.id == id then { id := r.id, name := v.name, description := v.description } else r) := by
  induction l with
  | nil => simp
  | cons x xs ih =>
    rw [List.pairwise_cons] at hp
    intro i hi
    rw [findIdx?_zero_cons] at hi
    by_cases h : (x.id == id) = true
    · rw [if_pos h] at hi
      obtain rfl : (0 : Nat) = i := Option.some_injective _ hi
      have hxid : x.id = id := by simpa using h
      have hxs : xs.map (fun r =>
          if r.id == id then { id := r.id, name := v.name, description := v.description } else r) = xs := by
        have h1 := List.map_congr_left (l := xs)
          (f := fun r : Item =>
            if r.id == id then { id := r.id, name := v.name, description := v.description } else r)
          (g := fun r : Item => r)
          (fun a ha => by
            have : a.id ≠ id := by rw [← hxid]; exact (hp.1 a ha).symm
            simp [this])
        rw [h1, List.map_id']
      have hval : ({ id := x.id, name := v.name, description := v.description } : Item) = v := by
        cases v
        simp at hv
        rw [hxid, hv]
      rw [List.set_cons_zero, List.map_cons, hxs, if_pos h, hval]
    · rw [if_neg h] at hi
      obtain ⟨j, hj, rfl⟩ := Option.map_eq_some'.mp hi
      rw [List.set_cons_succ, List.map_cons, if_neg h, ih hp.2 j hj]

theorem find?_of_mem_distinct {l : List Item} {i : Item}
    (hp : List.Pairwise (fun a b : Item => a.id ≠ b.id) l) (hm : i ∈ l) :
    l.find? (fun x => x.id == i.id) = some i := by
  induction l with
  | nil => exact absurd hm (List.not_mem_nil i)
  | cons x xs ih =>
    rw [List.pairwise_cons] at hp
    rcases List.mem_cons.mp hm with rfl | hm'
    · rw [List.find?_cons_of_pos _ (by simp)]
    · have hne : x.id ≠ i.id := hp.1 i hm'
      rw [List.find?_cons_of_neg _ (by simpa using hne)]
      exact ih hp.2 hm'

theorem pairwise_ne_of_chain' {l : List Item} (h : List.Chain' idLt l) :
    List.Pairwise (fun a b : Item => a.id ≠ b.id) l := by
  have := List.chain'_iff_pairwise.mp h
  exact this.imp (fun hab => ne_of_lt hab)

/-! ### Transition shape of the in-memory handler -/

theorem handleMem_cases (r : Request) (s : MemState) : ∀ res s2, handleMem r s = (res, s2) →
    (s2 = s ∧ createdIdOf res = [])
    ∨ (∃ n d,
        res = .json 201 (itemToJson { id := s.nextId, name := n, description := d })
        ∧ s2 = { items := s.items ++ [{ id := s.nextId, name := n, description := d }],
                 nextId := s.nextId + 1 })
    ∨ (∃ idx id n d, List.findIdx? (fun i => i.id == id) s.items = some idx
        ∧ s2 = { items := s.items.set idx { id := id, name := n, description := d },
                 nextId := s.nextId }
        ∧ createdIdOf res = [])
    ∨ (∃ idx id, List.findIdx? (fun i => i.id == id) s.items = some idx
        ∧ s2 = { items := s.items.eraseIdx idx, nextId := s.nextId }
        ∧ createdIdOf res = []) := by
  intro res s2 h
  unfold handleMem at h
  split at h
  · injection h with h1 h2; subst h1; subst h2; exact Or.inl ⟨rfl, rfl⟩
  split at h
  · injection h with h1 h2; subst h1; subst h2; exact Or.inl ⟨rfl, rfl⟩
  split at h
  · split at h
    · injection h with h1 h2; subst h1; subst h2; exact Or.inl ⟨rfl, rfl⟩
    · split at h
      · injection h with h1 h2; subst h1; subst h2; exact Or.inl ⟨rfl, rfl⟩
      · injection h with h1 h2; subst h1; subst h2; exact Or.inl ⟨rfl, rfl⟩
  split at h
  · split at h
    · injection h with h1 h2; subst h1; subst h2; exact Or.inl ⟨rfl, rfl⟩
    · dsimp only at h
      split at h
      · injection h with h1 h2; subst h1; subst h2; exact Or.inl ⟨rfl, rfl⟩
      · injection h with h1 h2; subst h1; subst h2
        exact Or.inr (Or.inl ⟨_, _, rfl, rfl⟩)
  split at h
  · split at h
    · injection h with h1 h2; subst h1; subst h2; exact Or.inl ⟨rfl, rfl⟩
    · next id hid =>
      split at h
      · injection h with h1 h2; subst h1; subst h2; exact Or.inl ⟨rfl, rfl⟩
      · next idx heq =>
        split at h
        · injection h with h1 h2; subst h1; subst h2; exact Or.inl ⟨rfl, rfl⟩
        · dsimp only at h
          split at h
          · injection h with h1 h2; subst h1; subst h2; exact Or.inl ⟨rfl, rfl⟩
          · injection h with h1 h2; subst h1; subst h2
            exact Or.inr (Or.inr (Or.inl ⟨idx, id, _, _, heq, rfl, rfl⟩))
  split at h
  · split at h
    · injection h with h1 h2; subst h1; subst h2; exact Or.inl ⟨rfl, rfl⟩
    · next id hid =>
      split at h
      · injection h with h1 h2; subst h1; subst h2; exact Or.inl ⟨rfl, rfl⟩
      · next idx heq =>
        injection h with h1 h2; subst h1; subst h2
        exact Or.inr (Or.inr (Or.inr ⟨idx, id, heq, rfl, rfl⟩))
  · injection h with h1 h2; subst h1; subst h2; exact Or.inl ⟨rfl, rfl⟩

/-! ### The store invariant -/

theorem set_get?_eq {α : Type} (l : List α) : ∀ n x, l.get? n = some x → l.set n x = l := by
  induction l with
  | nil => simp
  | cons a as ih =>
    intro n x h
    cases n with
    | zero =>
      rw [List.get?_cons_zero] at h
      rw [List.set_cons_zero, Option.some_injective _ h]
    | succ m =>
      rw [List.get?_cons_succ] at h
      rw [List.set_cons_succ, ih m x h]

theorem mem_of_getLast?_eq {α : Type} (l : List α) (x : α) (h : l.getLast? = some x) :
    x ∈ l := by
  have hne : l ≠ [] := by intro he; rw [he] at h; exact Option.noConfusion h
  rw [List.getLast?_eq_getLast l hne] at h
  have := Option.some_injective _ h
  rw [← this]
  exact List.getLast_mem hne

theorem goodMem_init : goodMem memInit := by
  refine ⟨List.chain'_nil, ?_, le_refl 1⟩
  intro i hi
  exact absurd hi (List.not_mem_nil i)

theorem goodMem_step (r : Request) (s : MemState) (hs : goodMem s) :
    goodMem (handleMem r s).2 := by
  obtain ⟨hchain, hbound, hpos⟩ := hs
  rcases handleMem_cases r s (handleMem r s).1 (handleMem r s).2 rfl with
    ⟨h2, _⟩ | ⟨n, d, _, h2⟩ | ⟨idx, id, n, d, hfind, h2, _⟩ | ⟨idx, id, hfind, h2, _⟩
  · rw [h2]; exact ⟨hchain, hbound, hpos⟩
  · rw [h2]
    refine ⟨?_, ?_, ?_⟩
    · rw [List.chain'_append]
      refine ⟨hchain, List.chain'_singleton _, ?_⟩
      intro x hx y hy
      rw [List.head?_cons, Option.mem_some_iff] at hy
      subst hy
      have hxmem : x ∈ s.items := mem_of_getLast?_eq _ x hx
      exact (hbound x hxmem).2
    · intro i hi
      rcases List.mem_append.mp hi with hi | hi
      · obtain ⟨ha, hb⟩ := hbound i hi
        refine ⟨ha, ?_⟩
        show i.id < s.nextId + 1
        omega
      · rw [List.mem_singleton] at hi
        subst hi
        refine ⟨hpos, ?_⟩
        show s.nextId < s.nextId + 1
        omega
    · show (1 : Int) ≤ s.nextId + 1
      omega
  · rw [h2]
    obtain ⟨a, hget, _, hpa⟩ := findIdx?_some_spec _ _ idx hfind
    have haid : a.id = id := by simpa using hpa
    have hids : (s.items.set idx { id := id, name := n, description := d }).map Item.id
        = s.items.map Item.id := by
      rw [List.map_set]
      have : (s.items.map Item.id).get? idx = some id := by
        rw [List.get?_map, hget, Option.map_some', haid]
      exact set_get?_eq _ idx id this
    refine ⟨?_, ?_, hpos⟩
    · have h1 : List.Chain' (· < ·) ((s.items.set idx
          { id := id, name := n, description := d }).map Item.id) := by
        rw [hids]
        exact (List.chain'_map Item.id).mpr hchain
      exact (List.chain'_map Item.id).mp h1
    · intro i hi
      rcases List.mem_or_eq_of_mem_set hi with hi' | rfl
      · exact hbound i hi'
      · have := hbound a (List.get?_mem hget)
        rw [haid] at this
        exact ⟨this.1, this.2⟩
  · rw [h2]
    refine ⟨?_, ?_, hpos⟩
    · exact List.Chain'.sublist hchain (List.eraseIdx_sublist s.items idx)
    · intro i hi
      exact hbound i ((List.eraseIdx_sublist s.items idx).subset hi)

theorem goodMem_runFrom (reqs : List Request) : ∀ s, goodMem s →
    goodMem (runMemFrom s reqs) := by
  induction reqs with
  | nil => intro s hs; exact hs
  | cons r rs ih => intro s hs; exact ih _ (goodMem_step r s hs)

theorem goodMem_runMem (reqs : List Request) : goodMem (runMem reqs) :=
  goodMem_runFrom reqs memInit goodMem_init

theorem nextId_step_mono (r : Request) (s : MemState) :
    s.nextId ≤ (handleMem r s).2.nextId := by
  rcases handleMem_cases r s (handleMem r s).1 (handleMem r s).2 rfl with
    ⟨h2, _⟩ | ⟨n, d, _, h2⟩ | ⟨idx, id, n, d, _, h2, _⟩ | ⟨idx, id, _, h2, _⟩ <;> rw [h2]
  show s.nextId ≤ s.nextId + 1
  omega

theorem createdIds_spec (reqs : List Request) : ∀ s, goodMem s →
    List.Chain' (· < ·) (createdIds s reqs) ∧ ∀ x ∈ createdIds s reqs, s.nextId ≤ x := by
  induction reqs with
  | nil => intro s _; exact ⟨List.chain'_nil, fun x hx => absurd hx (List.not_mem_nil x)⟩
  | cons r rs ih =>
    intro s hs
    have hs' : goodMem (handleMem r s).2 := goodMem_step r s hs
    obtain ⟨ihc, ihb⟩ := ih (handleMem r s).2 hs'
    have hmono : s.nextId ≤ (handleMem r s).2.nextId := nextId_step_mono r s
    rcases handleMem_cases r s (handleMem r s).1 (handleMem r s).2 rfl with
      ⟨h2, hc⟩ | ⟨n, d, h1, h2⟩ | ⟨_, _, _, _, _, h2, hc⟩ | ⟨_, _, _, h2, hc⟩
    · rw [createdIds, hc, List.nil_append]
      exact ⟨ihc, fun x hx => le_trans hmono (ihb x hx)⟩
    · have hcid : createdIdOf (handleMem r s).1 = [s.nextId] := by rw [h1]; rfl
      rw [createdIds, hcid, List.singleton_append]
      constructor
      · rw [List.chain'_cons']
        refine ⟨?_, ihc⟩
        intro y hy
        have hym : y ∈ createdIds (handleMem r s).2 rs := List.mem_of_mem_head? hy
        have h3 := ihb y hym
        rw [h2] at h3
        have h4 : s.nextId + 1 ≤ y := by simpa using h3
        omega
      · intro x hx
        rcases List.mem_cons.mp hx with rfl | hx'
        · exact le_refl _
        · exact le_trans hmono (ihb x hx')
    · rw [createdIds, hc, List.nil_append]
      exact ⟨ihc, fun x hx => le_trans hmono (ihb x hx)⟩
    · rw [createdIds, hc, List.nil_append]
      exact ⟨ihc, fun x hx => le_trans hmono (ihb x hx)⟩

theorem createdIdOf_eq_nextId (r : Request) (s : MemState) {i : Int}
    (h : createdIdOf (handleMem r s).1 = [i]) : i = s.nextId := by
  rcases handleMem_cases r s (handleMem r s).1 (handleMem r s).2 rfl with
    ⟨_, hc⟩ | ⟨n, d, h1, _⟩ | ⟨_, _, _, _, _, _, hc⟩ | ⟨_, _, _, _, hc⟩
  · rw [hc] at h; exact absurd h (by simp)
  · rw [h1] at h
    have : createdIdOf (.json 201 (itemToJson
        { id := s.nextId, name := n, description := d })) = [s.nextId] := rfl
    rw [this] at h
    injection h with h1 _
    exact h1.symm
  · rw [hc] at h; exact absurd h (by simp)
  · rw [hc] at h; exact absurd h (by simp)

/-! ### Route-level equations for the in-memory handler -/

theorem handleMem_get_all (b : ReqBody) (s : MemState) :
    handleMem { method := "GET", path := "/items", body := b } s
      = (.json 200 (.arr (s.items.map itemToJson)), s) := by
  unfold handleMem
  dsimp only
  rw [if_neg (by simp), if_pos (by simp)]

theorem handleMem_id_parse_none {m : String} (hm : m = "GET" ∨ m = "PUT" ∨ m = "DELETE")
    {p : String} (hsw : startsWithItems p = true) (hid : jsParseInt (seg2 p) = none)
    (b : ReqBody) (s : MemState) :
    handleMem { method := m, path := p, body := b } s
      = (.json 400 (errJson "Invalid item ID"), s) := by
  have hne := startsWithItems_ne_items hsw
  rcases hm with rfl | rfl | rfl
  · unfold handleMem
    dsimp only
    rw [if_neg (by simp), if_neg (by simp [hne]), if_pos (by simp [hsw]), hid]
  · unfold handleMem
    dsimp only
    rw [if_neg (by simp), if_neg (by simp), if_neg (by simp), if_neg (by simp),
        if_pos (by simp [hsw]), hid]
  · unfold handleMem
    dsimp only
    rw [if_neg (by simp), if_neg (by simp), if_neg (by simp), if_neg (by simp),
        if_neg (by simp), if_pos (by simp [hsw]), hid]

theorem handleMem_get_some {p : String} (hsw : startsWithItems p = true) {id : Int}
    (hid : jsParseInt (seg2 p) = some id) (b : ReqBody) (s : MemState) :
    handleMem { method := "GET", path := p, body := b } s
      = (match s.items.find? (fun i => i.id == id) with
         | some item => (.json 200 (itemToJson item), s)
         | none => (.json 404 (errJson "Item not found"), s)) := by
  have hne := startsWithItems_ne_items hsw
  unfold handleMem
  dsimp only
  rw [if_neg (by simp), if_neg (by simp [hne]), if_pos (by simp [hsw]), hid]

theorem handleMem_post (b : ReqBody) (s : MemState) :
    handleMem { method := "POST", path := "/items", body := b } s
      = (match parseBody b with
         | .error _ => (.json 400 (errJson "Invalid JSON"), s)
         | .ok data =>
           let v := validateItemInput data
           if !v.isValid then
             (.json 400 (validationJson v.errors), s)
           else
             let newItem : Item :=
               { id := s.nextId
                 name := jsTrim (fieldStr data "name")
                 description := jsTrim (fieldStr data "description") }
             (.json 201 (itemToJson newItem),
              { items := s.items ++ [newItem], nextId := s.nextId + 1 })) := by
  unfold handleMem
  dsimp only
  rw [if_neg (by simp), if_neg (by simp), if_neg (by simp), if_pos (by simp)]

theorem handleMem_put_some {p : String} (hsw : startsWithItems p = true) {id : Int}
    (hid : jsParseInt (seg2 p) = some id) (b : ReqBody) (s : MemState) :
    handleMem { method := "PUT", path := p, body := b } s
      = (match s.items.findIdx? (fun i => i.id == id) with
         | none => (.json 404 (errJson "Item not found"), s)
         | some idx =>
           match parseBody b with
           | .error _ => (.json 400 (errJson "Invalid JSON"), s)
           | .ok data =>
             let v := validateItemInput data
             if !v.isValid then
               (.json 400 (validationJson v.errors), s)
             else
               let upd : Item :=
                 { id := id
                   name := jsTrim (fieldStr data "name")
                   description := jsTrim (fieldStr data "description") }
               (.json 200 (itemToJson upd),
                { items := s.items.set idx upd, nextId := s.nextId })) := by
  unfold handleMem
  dsimp only
  rw [if_neg (by simp), if_neg (by simp), if_neg (by simp), if_neg (by simp),
      if_pos (by simp [hsw]), hid]

theorem handleMem_delete_some {p : String} (hsw : startsWithItems p = true) {id : Int}
    (hid : jsParseInt (seg2 p) = some id) (b : ReqBody) (s : MemState) :
    handleMem { method := "DELETE", path := p, body := b } s
      = (match s.items.findIdx? (fun i => i.id == id) with
         | none => (.json 404 (errJson "Item not found"), s)
         | some idx =>
           (.json 200 (deletedJson ((s.items.get? idx).getD
              { id := 0, name := "", description := "" })),
            { items := s.items.eraseIdx idx, nextId := s.nextId })) := by
  unfold handleMem
  dsimp only
  rw [if_neg (by simp), if_neg (by simp), if_neg (by simp), if_neg (by simp),
      if_neg (by simp), if_pos (by simp [hsw]), hid]

/-! ### Validation characterization -/

theorem validateItemInput_falsy {data : Option Json} (h : jsFalsy data = true) :
    validateItemInput data = { isValid := false, errors := ["Request body is required"] } := by
  rw [validateItemInput, if_pos h]

theorem truthy_of_getField {j : Json} {k : String} {v : Json}
    (h : getField j k = some v) : truthy j = true := by
  cases j <;> simp [getField] at h <;> rfl

theorem validateItemInput_isValid_iff {j : Json} {n d : String}
    (hn : getField j "name" = some (.str n)) (hd : getField j "description" = some (.str d)) :
    ((validateItemInput (some j)).isValid = true
      ↔ (1 ≤ (jsTrim n).length ∧ n.length ≤ 100 ∧ 1 ≤ (jsTrim d).length ∧ d.length ≤ 500)) := by
  have htruthy : truthy j = true := truthy_of_getField hn
  rw [validateItemInput, if_neg (by simp [jsFalsy, htruthy])]
  dsimp only [Option.getD]
  rw [hn, hd]
  simp [jsFalsy, truthy, isStringVal, strOf, List.isEmpty_iff, List.append_eq_nil]
  constructor
  · rintro ⟨⟨hn1, hn2⟩, ⟨hd1, hd2⟩, hn3, hd3⟩
    exact ⟨by omega, hn3 hn1, by omega, hd3 hd1⟩
  · rintro ⟨hn1, hn2, hd1, hd2⟩
    have hne : ¬n = "" := fun h => by rw [h] at hn1; exact absurd hn1 (by decide)
    have hde : ¬d = "" := fun h => by rw [h] at hd1; exact absurd hd1 (by decide)
    exact ⟨⟨hne, by omega⟩, ⟨hde, by omega⟩, fun _ => hn2, fun _ => hd2⟩

theorem validate_name_too_long {j : Json} {n : String}
    (hn : getField j "name" = some (.str n)) (hlen : 100 < n.length) :
    "Name must be 100 characters or less" ∈ (validateItemInput (some j)).errors := by
  have htruthy : truthy j = true := truthy_of_getField hn
  have hne : (n == "") = false := by
    rw [beq_eq_false_iff_ne]
    intro h
    rw [h] at hlen
    exact absurd hlen (by decide)
  rw [validateItemInput, if_neg (by simp [jsFalsy, htruthy])]
  dsimp only [Option.getD]
  rw [hn]
  refine List.mem_append.mpr (Or.inl (List.mem_append.mpr (Or.inr ?_)))
  rw [if_pos ?_]
  · exact List.mem_singleton.mpr rfl
  · simp [jsFalsy, truthy, isStringVal, strOf, hne, hlen]
    exact beq_eq_false_iff_ne.mp hne

theorem handleMem_post_status (j : Json) (s : MemState) :
    respStatus (handleMem { method := "POST", path := "/items", body := .json j } s).1 = 201
      ↔ (validateItemInput (some j)).isValid = true := by
  rw [handleMem_post]
  dsimp only [parseBody]
  by_cases hv : (validateItemInput (some j)).isValid = true
  · simp [hv, respStatus]
  · rw [Bool.not_eq_true] at hv
    simp [hv, respStatus]

theorem handleMem_put_status {p : String} (hsw : startsWithItems p = true) {id : Int}
    (hid : jsParseInt (seg2 p) = some id) {idx : Nat} (j : Json) (s : MemState)
    (hfind : s.items.findIdx? (fun i => i.id == id) = some idx) :
    respStatus (handleMem { method := "PUT", path := p, body := .json j } s).1 = 200
      ↔ (validateItemInput (some j)).isValid = true := by
  rw [handleMem_put_some hsw hid, hfind]
  dsimp only [parseBody]
  by_cases hv : (validateItemInput (some j)).isValid = true
  · simp [hv, respStatus]
  · rw [Bool.not_eq_true] at hv
    simp [hv, respStatus]

/-! ### Claims -/

/-- C1 (counterexample): a POST body whose name is 100 `a`s followed by a
space — trimmed length exactly 100 — is rejected with 400 and the detail
"Name must be 100 characters or less", contradicting the claim that such
a name is never rejected with that message. -/
theorem claim_C1_counterexample :
    (jsTrim ⟨List.replicate 100 'a' ++ [' ']⟩).length = 100
    ∧ handleMem
        { method := "POST", path := "/items",
          body := .json (.obj [("name", .str ⟨List.replicate 100 'a' ++ [' ']⟩),
                               ("description", .str "x")]) } memInit
      = (.json 400 (validationJson ["Name must be 100 characters or less"]), memInit) :=
  ⟨rfl, rfl⟩

/-- C1 (amended): for bodies with string `name` and `description` fields,
the request succeeds iff the trimmed fields are non-empty and the
UNTRIMMED lengths are within 100/500; a name whose untrimmed length
exceeds 100 draws the "Name must be 100 characters or less" detail even
when its trimmed length is at most 100. -/
theorem claim_C1 (s : MemState) (j : Json) (n d : String)
    (hn : getField j "name" = some (.str n)) (hd : getField j "description" = some (.str d)) :
    (respStatus (handleMem { method := "POST", path := "/items", body := .json j } s).1 = 201
      ↔ (1 ≤ (jsTrim n).length ∧ n.length ≤ 100 ∧ 1 ≤ (jsTrim d).length ∧ d.length ≤ 500))
    ∧ (∀ (p : String) (id : Int) (idx : Nat), startsWithItems p = true →
        jsParseInt (seg2 p) = some id →
        s.items.findIdx? (fun i => i.id == id) = some idx →
        (respStatus (handleMem { method := "PUT", path := p, body := .json j } s).1 = 200
          ↔ (1 ≤ (jsTrim n).length ∧ n.length ≤ 100 ∧ 1 ≤ (jsTrim d).length ∧ d.length ≤ 500)))
    ∧ (100 < n.length →
        "Name must be 100 characters or less" ∈ (validateItemInput (some j)).errors) := by
  refine ⟨?_, ?_, ?_⟩
  · rw [handleMem_post_status]
    exact validateItemInput_isValid_iff hn hd
  · intro p id idx hsw hid hfind
    rw [handleMem_put_status hsw hid j s hfind]
    exact validateItemInput_isValid_iff hn hd
  · exact fun hlen => validate_name_too_long hn hlen

/-- C1 witness: a concrete valid body is accepted with 201. -/
theorem claim_C1_witness :
    respStatus (handleMem
      { method := "POST", path := "/items",
        body := .json (.obj [("name", .str "A"), ("description", .str "B")]) } memInit).1 = 201 :=
  ((claim_C1 memInit (.obj [("name", .str "A"), ("description", .str "B")])
      "A" "B" rfl rfl).1).mpr (by decide)

/-- C2 (counterexample): the id segment "12abc" is not the decimal
representation of an integer, yet `parseInt` reads it as 12, so GET
/items/12abc consults the store and answers 404 rather than the claimed
400 Invalid item ID. -/
theorem claim_C2_counterexample :
    jsParseInt "12abc" = some 12
    ∧ handleMem { method := "GET", path := "/items/12abc", body := .empty } memInit
        = (.json 404 (errJson "Item not found"), memInit) :=
  ⟨rfl, rfl⟩

/-- C2 (amended): for the ids the code actually treats as malformed —
those on which `parseInt` yields NaN, such as "abc" and "" — every
id-based route answers 400 Invalid item ID, leaves the state unchanged,
and produces a response independent of the store contents. -/
theorem claim_C2 (m : String) (hm : m = "GET" ∨ m = "PUT" ∨ m = "DELETE")
    (p : String) (hsw : startsWithItems p = true) (hid : jsParseInt (seg2 p) = none)
    (b : ReqBody) (s s' : MemState) :
    handleMem { method := m, path := p, body := b } s
      = (.json 400 (errJson "Invalid item ID"), s)
    ∧ (handleMem { method := m, path := p, body := b } s).1
        = (handleMem { method := m, path := p, body := b } s').1 := by
  refine ⟨handleMem_id_parse_none hm hsw hid b s, ?_⟩
  rw [handleMem_id_parse_none hm hsw hid b s, handleMem_id_parse_none hm hsw hid b s']

/-- C2 witness: GET /items/abc answers 400 on the empty store. -/
theorem claim_C2_witness :
    handleMem { method := "GET", path := "/items/abc", body := .empty } memInit
      = (.json 400 (errJson "Invalid item ID"), memInit) :=
  (claim_C2 "GET" (Or.inl rfl) "/items/abc" rfl rfl .empty memInit memInit).1

/-- C6: after reset, GET /items answers 200 with the empty array and a
successful POST assigns id 1; likewise the SQLite reset empties the table
and restarts the AUTOINCREMENT sequence so the next insert gets rowid 1. -/
theorem claim_C6 (s : MemState) (q : SqlState) (b : ReqBody) (j : Json) (n d : String)
    (hvalid : (validateItemInput (some j)).isValid = true) :
    handleMem { method := "GET", path := "/items", body := b } (resetMyServerData s)
      = (.json 200 (.arr []), resetMyServerData s)
    ∧ (handleMem { method := "POST", path := "/items", body := .json j }
        (resetMyServerData s)).1
      = .json 201 (itemToJson
          { id := 1, name := jsTrim (fieldStr (some j) "name"),
            description := jsTrim (fieldStr (some j) "description") })
    ∧ sqlSelectAll (resetSqlServerData q) = []
    ∧ (sqlInsert (resetSqlServerData q) n d).1.id = 1 := by
  refine ⟨?_, ?_, rfl, rfl⟩
  · rw [handleMem_get_all]
    rfl
  · rw [handleMem_post]
    dsimp only [parseBody]
    simp [hvalid]
    rfl

/-- C6 witness: a concrete valid POST after reset creates item 1. -/
theorem claim_C6_witness :
    (handleMem
        { method := "POST", path := "/items",
          body := .json (.obj [("name", .str "A"), ("description", .str "B")]) }
        (resetMyServerData
          { items := [{ id := 7, name := "x", description := "y" }], nextId := 9 })).1
      = .json 201 (itemToJson { id := 1, name := "A", description := "B" }) :=
  (claim_C6 { items := [{ id := 7, name := "x", description := "y" }], nextId := 9 }
    sqlInit .empty _ "n" "d" (by decide)).2.1

/-- C8: a PUT whose id parses but matches no stored item answers 404
regardless of the body — even an empty or malformed one — because the
not-found check runs before body parsing and validation. -/
theorem claim_C8 (p : String) (hsw : startsWithItems p = true) (id : Int)
    (hid : jsParseInt (seg2 p) = some id) (s : MemState)
    (hnone : s.items.find? (fun i => i.id == id) = none) (b : ReqBody) :
    handleMem { method := "PUT", path := p, body := b } s
      = (.json 404 (errJson "Item not found"), s) := by
  have hidx : s.items.findIdx? (fun i => i.id == id) = none :=
    (findIdx?_none_iff _ _).mpr hnone
  rw [handleMem_put_some hsw hid, hidx]

/-- C8 witness: PUT /items/999 with a malformed body answers 404 on the
empty store. -/
theorem claim_C8_witness :
    handleMem { method := "PUT", path := "/items/999", body := .malformed } memInit
      = (.json 404 (errJson "Item not found"), memInit) :=
  claim_C8 "/items/999" rfl 999 rfl memInit rfl .malformed

/-- C10: a POST (or a PUT on an existing id) whose body is empty or is
valid JSON encoding a falsy value is treated as a missing body: 400 with
details exactly ["Request body is required"]. -/
theorem claim_C10 (s : MemState) (b : ReqBody)
    (hb : b = .empty ∨ ∃ j, b = .json j ∧ truthy j = false) :
    handleMem { method := "POST", path := "/items", body := b } s
      = (.json 400 (validationJson ["Request body is required"]), s)
    ∧ ∀ (p : String) (id : Int) (idx : Nat), startsWithItems p = true →
        jsParseInt (seg2 p) = some id →
        s.items.findIdx? (fun i => i.id == id) = some idx →
        handleMem { method := "PUT", path := p, body := b } s
          = (.json 400 (validationJson ["Request body is required"]), s) := by
  obtain ⟨data, hpb, hfalsy⟩ : ∃ data, parseBody b = .ok data ∧ jsFalsy data = true := by
    rcases hb with rfl | ⟨j, rfl, hj⟩
    · exact ⟨none, rfl, rfl⟩
    · exact ⟨some j, rfl, by simp [jsFalsy, hj]⟩
  have hv := validateItemInput_falsy hfalsy
  constructor
  · rw [handleMem_post, hpb]
    simp [hv]
  · intro p id idx hsw hid hfind
    rw [handleMem_put_some hsw hid, hfind, hpb]
    simp [hv]

/-- C10 witness: POST with body `null` and PUT /items/1 with body `0` on
a store containing item 1 both answer 400 Request body is required. -/
theorem claim_C10_witness :
    handleMem { method := "POST", path := "/items", body := .json .null }
        { items := [{ id := 1, name := "A", description := "B" }], nextId := 2 }
      = (.json 400 (validationJson ["Request body is required"]),
         { items := [{ id := 1, name := "A", description := "B" }], nextId := 2 })
    ∧ handleMem { method := "PUT", path := "/items/1", body := .json (.num 0) }
        { items := [{ id := 1, name := "A", description := "B" }], nextId := 2 }
      = (.json 400 (validationJson ["Request body is required"]),
         { items := [{ id := 1, name := "A", description := "B" }], nextId := 2 }) :=
  ⟨(claim_C10 _ _ (Or.inr ⟨.null, rfl, rfl⟩)).1,
   (claim_C10 _ _ (Or.inr ⟨.num 0, rfl, rfl⟩)).2 "/items/1" 1 0 rfl rfl rfl⟩

/-- C9: for GET, PUT and DELETE, every path starting with "/items/" is
handled through its second segment only, so the request behaves exactly
like one whose path is "/items/" followed by that segment (e.g.
"/items/1/anything" behaves like "/items/1"); the path "/items/" itself
yields 400 Invalid item ID, not 404 Not found. -/
theorem claim_C9 (m : String) (hm : m = "GET" ∨ m = "PUT" ∨ m = "DELETE")
    (p : String) (hsw : startsWithItems p = true) (b : ReqBody) (s : MemState) :
    handleMem { method := m, path := p, body := b } s
      = handleMem { method := m, path := "/items/" ++ seg2 p, body := b } s
    ∧ handleMem { method := m, path := "/items/", body := b } s
      = (.json 400 (errJson "Invalid item ID"), s) := by
  have hns := seg2_no_slash hsw
  obtain ⟨hseg, hsw2⟩ := seg2_append hns
  constructor
  · cases hid : jsParseInt (seg2 p) with
    | none =>
      rw [handleMem_id_parse_none hm hsw hid b s,
          handleMem_id_parse_none hm hsw2 (by rw [hseg]; exact hid) b s]
    | some id =>
      have hid2 : jsParseInt (seg2 ("/items/" ++ seg2 p)) = some id := by
        rw [hseg]; exact hid
      rcases hm with rfl | rfl | rfl
      · rw [handleMem_get_some hsw hid b s, handleMem_get_some hsw2 hid2 b s]
      · rw [handleMem_put_some hsw hid b s, handleMem_put_some hsw2 hid2 b s]
      · rw [handleMem_delete_some hsw hid b s, handleMem_delete_some hsw2 hid2 b s]
  · refine handleMem_id_parse_none hm ?_ ?_ b s <;> rfl

/-- C9 witness: GET /items/1/anything is handled exactly like the path
rebuilt from its second segment, on a store containing item 1. -/
theorem claim_C9_witness :
    handleMem { method := "GET", path := "/items/1/anything", body := .empty }
        { items := [{ id := 1, name := "A", description := "B" }], nextId := 2 }
      = handleMem
          { method := "GET", path := "/items/" ++ seg2 "/items/1/anything", body := .empty }
          { items := [{ id := 1, name := "A", description := "B" }], nextId := 2 } :=
  (claim_C9 "GET" (Or.inl rfl) "/items/1/anything" rfl .empty
    { items := [{ id := 1, name := "A", description := "B" }], nextId := 2 }).1

theorem find?_append_of_none {α : Type} (p : α → Bool) (l1 l2 : List α)
    (h : l1.find? p = none) : (l1 ++ l2).find? p = l2.find? p := by
  induction l1 with
  | nil => rfl
  | cons x xs ih =>
    cases hp : p x with
    | true =>
      rw [List.find?_cons_of_pos _ hp] at h
      exact Option.noConfusion h
    | false =>
      rw [List.find?_cons_of_neg _ (by simp [hp])] at h
      rw [List.cons_append, List.find?_cons_of_neg _ (by simp [hp])]
      exact ih h

theorem intRepr_no_slash {i : Int} (h : 0 ≤ i) :
    ∀ c ∈ (intRepr i).data, (c == '/') = false := by
  rw [intRepr, if_neg (not_lt.mpr h)]
  intro c hc
  have hdig := (natRepr_digits i.toNat).1 c hc
  simp [(isDigit_char_ne hdig).2.2.2.2.2]

/-- C4: from any reachable state, a valid POST /items returns 201 with
the next assigned id and the trimmed fields, and a GET on
"/items/<that id>" against the resulting state returns 200 with exactly
that item. -/
theorem claim_C4 (reqs : List Request) (s : MemState) (hs : runMem reqs = s)
    (j : Json) (n d : String)
    (hn : getField j "name" = some (.str n)) (hd : getField j "description" = some (.str d))
    (hvalid : (validateItemInput (some j)).isValid = true) (b : ReqBody) :
    handleMem { method := "POST", path := "/items", body := .json j } s
      = (.json 201 (itemToJson { id := s.nextId, name := jsTrim n, description := jsTrim d }),
         { items := s.items ++ [{ id := s.nextId, name := jsTrim n, description := jsTrim d }],
           nextId := s.nextId + 1 })
    ∧ handleMem { method := "GET", path := "/items/" ++ intRepr s.nextId, body := b }
        { items := s.items ++ [{ id := s.nextId, name := jsTrim n, description := jsTrim d }],
          nextId := s.nextId + 1 }
      = (.json 200 (itemToJson { id := s.nextId, name := jsTrim n, description := jsTrim d }),
         { items := s.items ++ [{ id := s.nextId, name := jsTrim n, description := jsTrim d }],
           nextId := s.nextId + 1 }) := by
  have hgood : goodMem s := hs ▸ goodMem_runMem reqs
  obtain ⟨hchain, hbound, hpos⟩ := hgood
  constructor
  · rw [handleMem_post]
    dsimp only [parseBody]
    simp [hvalid, fieldStr, hn, hd, strOf]
  · have hpos' : (0 : Int) ≤ s.nextId := by omega
    have hns := intRepr_no_slash hpos'
    obtain ⟨hseg, hsw⟩ := seg2_append hns
    have hid : jsParseInt (seg2 ("/items/" ++ intRepr s.nextId)) = some s.nextId := by
      rw [hseg]
      exact jsParseInt_intRepr hpos'
    rw [handleMem_get_some hsw hid]
    have hfindnil : s.items.find? (fun i => i.id == s.nextId) = none := by
      rw [List.find?_eq_none]
      intro a ha
      have hlt := (hbound a ha).2
      simp
      omega
    have hfind : (s.items ++
        [({ id := s.nextId, name := jsTrim n, description := jsTrim d } : Item)]).find?
          (fun i => i.id == s.nextId)
        = some { id := s.nextId, name := jsTrim n, description := jsTrim d } := by
      rw [find?_append_of_none _ _ _ hfindnil, List.find?_cons_of_pos _ (by simp)]
    rw [hfind]

/-- C4 witness: a concrete create-then-read round trip from the empty
store. -/
theorem claim_C4_witness :
    handleMem { method := "GET", path := "/items/" ++ intRepr 1, body := .empty }
        { items := [{ id := 1, name := "A", description := "B" }], nextId := 2 }
      = (.json 200 (itemToJson { id := 1, name := "A", description := "B" }),
         { items := [{ id := 1, name := "A", description := "B" }], nextId := 2 }) := by
  have h := (claim_C4 [] memInit rfl (.obj [("name", .str "A"), ("description", .str "B")])
    "A" "B" rfl rfl (by decide) .empty).2
  simpa using h

/-- C7: from any reachable state containing an item `i`, DELETE on its id
returns 200 with the removed item, leaves exactly the other items in
their original order, and afterwards GET /items lists exactly the
remaining items while GET on the deleted id returns 404. -/
theorem claim_C7 (reqs : List Request) (s : MemState) (hs : runMem reqs = s)
    (i : Item) (hm : i ∈ s.items) (b b' b'' : ReqBody) :
    handleMem { method := "DELETE", path := "/items/" ++ intRepr i.id, body := b } s
      = (.json 200 (deletedJson i),
         { items := s.items.filter (fun x => !(x.id == i.id)), nextId := s.nextId })
    ∧ handleMem { method := "GET", path := "/items", body := b' }
        { items := s.items.filter (fun x => !(x.id == i.id)), nextId := s.nextId }
      = (.json 200 (.arr ((s.items.filter (fun x => !(x.id == i.id))).map itemToJson)),
         { items := s.items.filter (fun x => !(x.id == i.id)), nextId := s.nextId })
    ∧ handleMem { method := "GET", path := "/items/" ++ intRepr i.id, body := b'' }
        { items := s.items.filter (fun x => !(x.id == i.id)), nextId := s.nextId }
      = (.json 404 (errJson "Item not found"),
         { items := s.items.filter (fun x => !(x.id == i.id)), nextId := s.nextId }) := by
  have hgood : goodMem s := hs ▸ goodMem_runMem reqs
  obtain ⟨hchain, hbound, hpos⟩ := hgood
  have hpw := pairwise_ne_of_chain' hchain
  have hpos' : (0 : Int) ≤ i.id := by have := (hbound i hm).1; omega
  have hns := intRepr_no_slash hpos'
  obtain ⟨hseg, hsw⟩ := seg2_append hns
  have hid : jsParseInt (seg2 ("/items/" ++ intRepr i.id)) = some i.id := by
    rw [hseg]
    exact jsParseInt_intRepr hpos'
  have hfind : s.items.find? (fun x => x.id == i.id) = some i :=
    find?_of_mem_distinct hpw hm
  have hpu : List.Pairwise
      (fun a b : Item => ((a.id == i.id) = true → (b.id == i.id) = false)) s.items := by
    refine hpw.imp ?_
    intro a b hab ha
    have ha' : a.id = i.id := by simpa using ha
    rw [beq_eq_false_iff_ne]
    intro hb
    exact hab (by rw [ha', hb])
  refine ⟨?_, ?_, ?_⟩
  · rw [handleMem_delete_some hsw hid]
    cases hidx : s.items.findIdx? (fun x => x.id == i.id) with
    | none =>
      rw [(findIdx?_none_iff _ _).mp hidx] at hfind
      exact Option.noConfusion hfind
    | some idx =>
      obtain ⟨a, hget, hfnd, _⟩ := findIdx?_some_spec _ _ idx hidx
      have ha : a = i := by
        rw [hfind] at hfnd
        exact (Option.some_injective _ hfnd).symm
      subst ha
      dsimp only
      rw [hget, eraseIdx_of_findIdx? _ _ idx hidx, eraseP_eq_filter_of_unique _ _ hpu]
      rfl
  · rw [handleMem_get_all]
  · rw [handleMem_get_some hsw hid]
    have hnone : (s.items.filter (fun x => !(x.id == i.id))).find?
        (fun x => x.id == i.id) = none := by
      rw [List.find?_eq_none]
      intro a ha
      have := List.of_mem_filter ha
      simp at this ⊢
      exact this
    rw [hnone]

/-- C7 witness: deleting the middle item of a three-item reachable store. -/
theorem claim_C7_witness :
    handleMem { method := "DELETE", path := "/items/" ++ intRepr 2, body := .empty }
        { items := [{ id := 1, name := "A", description := "a" },
                    { id := 2, name := "B", description := "b" },
                    { id := 3, name := "C", description := "c" }], nextId := 4 }
      = (.json 200 (deletedJson { id := 2, name := "B", description := "b" }),
         { items := [{ id := 1, name := "A", description := "a" },
                     { id := 3, name := "C", description := "c" }], nextId := 4 }) := by
  have h := (claim_C7
    [{ method := "POST", path := "/items",
       body := .json (.obj [("name", .str "A"), ("description", .str "a")]) },
     { method := "POST", path := "/items",
       body := .json (.obj [("name", .str "B"), ("description", .str "b")]) },
     { method := "POST", path := "/items",
       body := .json (.obj [("name", .str "C"), ("description", .str "c")]) }]
    { items := [{ id := 1, name := "A", description := "a" },
                { id := 2, name := "B", description := "b" },
                { id := 3, name := "C", description := "c" }], nextId := 4 }
    rfl { id := 2, name := "B", description := "b" } (by decide) .empty .empty .empty).1
  simpa using h

/-- C5: in every reachable state the stored ids are strictly increasing
in creation order (hence pairwise distinct); the ids handed out by 201
responses along any run are strictly increasing, so no id — in particular
no deleted item's id — is ever assigned twice; any id present in a
reachable state is never among the ids assigned by later requests; and a
201 response's id is always the pre-state's counter, independent of the
request (and so of any body field). -/
theorem claim_C5 :
    (∀ reqs : List Request,
      List.Chain' idLt (runMem reqs).items
      ∧ List.Pairwise (fun a b : Item => a.id ≠ b.id) (runMem reqs).items)
    ∧ (∀ reqs : List Request, List.Chain' (· < ·) (createdIds memInit reqs))
    ∧ (∀ (reqs rest : List Request) (x : Int),
        x ∈ (runMem reqs).items.map Item.id → x ∉ createdIds (runMem reqs) rest)
    ∧ (∀ (r : Request) (s : MemState) (i : Int),
        createdIdOf (handleMem r s).1 = [i] → i = s.nextId) := by
  refine ⟨?_, ?_, ?_, ?_⟩
  · intro reqs
    have h := goodMem_runMem reqs
    exact ⟨h.1, pairwise_ne_of_chain' h.1⟩
  · intro reqs
    exact (createdIds_spec reqs memInit goodMem_init).1
  · intro reqs rest x hx hmem
    obtain ⟨-, hbound, -⟩ := goodMem_runMem reqs
    obtain ⟨i, him, rfl⟩ := List.mem_map.mp hx
    have hlt := (hbound i him).2
    have hge := (createdIds_spec rest (runMem reqs) (goodMem_runMem reqs)).2 _ hmem
    omega
  · exact fun r s i h => createdIdOf_eq_nextId r s h

/-- C5 witness: after creating item 1, the id 1 — even once deleted — is
not among the ids assigned by a later delete-and-create run. -/
theorem claim_C5_witness :
    (1 : Int) ∉ createdIds
      (runMem [{ method := "POST", path := "/items",
                 body := .json (.obj [("name", .str "A"), ("description", .str "a")]) }])
      [{ method := "DELETE", path := "/items/1", body := .empty },
       { method := "POST", path := "/items",
         body := .json (.obj [("name", .str "B"), ("description", .str "b")]) }] :=
  claim_C5.2.2.1
    [{ method := "POST", path := "/items",
       body := .json (.obj [("name", .str "A"), ("description", .str "a")]) }]
    [{ method := "DELETE", path := "/items/1", body := .empty },
     { method := "POST", path := "/items",
       body := .json (.obj [("name", .str "B"), ("description", .str "b")]) }]
    1 (by decide)

/-! ### Equivalence of the in-memory and SQLite handlers -/

theorem sortById_eq_self {l : List Item} (h : List.Chain' idLt l) : sortById l = l := by
  induction l with
  | nil => rfl
  | cons x xs ih =>
    have hs : sortById xs = xs := ih h.tail
    show insertById x (sortById xs) = x :: xs
    rw [hs]
    cases xs with
    | nil => rfl
    | cons y ys =>
      have hxy : x.id ≤ y.id := le_of_lt (List.chain'_cons.mp h).1
      simp [insertById, hxy]

theorem maxRowId_le {l : List Item} {b : Int} (hb : 0 ≤ b) (h : ∀ i ∈ l, i.id ≤ b) :
    maxRowId l ≤ b := by
  induction l with
  | nil => simpa [maxRowId] using hb
  | cons x xs ih =>
    show max x.id (maxRowId xs) ≤ b
    exact max_le (h x (List.mem_cons_self x xs))
      (ih fun i hi => h i (List.mem_cons_of_mem x hi))

theorem handleMem_options (p : String) (b : ReqBody) (s : MemState) :
    handleMem { method := "OPTIONS", path := p, body := b } s = (.noBody 200, s) := by
  unfold handleMem
  dsimp only
  rw [if_pos (by simp)]

theorem handleMem_default (m p : String) (b : ReqBody) (s : MemState)
    (h1 : m ≠ "OPTIONS")
    (h2 : ¬(m = "GET" ∧ p = "/items"))
    (h3 : ¬(m = "GET" ∧ startsWithItems p = true))
    (h4 : ¬(m = "POST" ∧ p = "/items"))
    (h5 : ¬(m = "PUT" ∧ startsWithItems p = true))
    (h6 : ¬(m = "DELETE" ∧ startsWithItems p = true)) :
    handleMem { method := m, path := p, body := b } s
      = (.json 404 (errJson "Not found"), s) := by
  unfold handleMem
  dsimp only
  rw [if_neg (by simpa using h1), if_neg (by simpa using h2), if_neg (by simpa using h3),
      if_neg (by simpa using h4), if_neg (by simpa using h5), if_neg (by simpa using h6)]

theorem handleSql_options (p : String) (b : ReqBody) (q : SqlState) :
    handleSql { method := "OPTIONS", path := p, body := b } q = (.noBody 200, q) := by
  unfold handleSql
  dsimp only
  rw [if_pos (by simp)]

theorem handleSql_default (m p : String) (b : ReqBody) (q : SqlState)
    (h1 : m ≠ "OPTIONS")
    (h2 : ¬(m = "GET" ∧ p = "/items"))
    (h3 : ¬(m = "GET" ∧ startsWithItems p = true))
    (h4 : ¬(m = "POST" ∧ p = "/items"))
    (h5 : ¬(m = "PUT" ∧ startsWithItems p = true))
    (h6 : ¬(m = "DELETE" ∧ startsWithItems p = true)) :
    handleSql { method := m, path := p, body := b } q
      = (.json 404 (errJson "Not found"), q) := by
  unfold handleSql
  dsimp only
  rw [if_neg (by simpa using h1), if_neg (by simpa using h2), if_neg (by simpa using h3),
      if_neg (by simpa using h4), if_neg (by simpa using h5), if_neg (by simpa using h6)]

theorem handleSql_get_all (b : ReqBody) (q : SqlState) :
    handleSql { method := "GET", path := "/items", body := b } q
      = (.json 200 (.arr ((sqlSelectAll q).map itemToJson)), q) := by
  unfold handleSql
  dsimp only
  rw [if_neg (by simp), if_pos (by simp)]

theorem handleSql_id_parse_none {m : String} (hm : m = "GET" ∨ m = "PUT" ∨ m = "DELETE")
    {p : String} (hsw : startsWithItems p = true) (hid : jsParseInt (seg2 p) = none)
    (b : ReqBody) (q : SqlState) :
    handleSql { method := m, path := p, body := b } q
      = (.json 400 (errJson "Invalid item ID"), q) := by
  have hne := startsWithItems_ne_items hsw
  rcases hm with rfl | rfl | rfl
  · unfold handleSql
    dsimp only
    rw [if_neg (by simp), if_neg (by simp [hne]), if_pos (by simp [hsw]), hid]
  · unfold handleSql
    dsimp only
    rw [if_neg (by simp), if_neg (by simp), if_neg (by simp), if_neg (by simp),
        if_pos (by simp [hsw]), hid]
  · unfold handleSql
    dsimp only
    rw [if_neg (by simp), if_neg (by simp), if_neg (by simp), if_neg (by simp),
        if_neg (by simp), if_pos (by simp [hsw]), hid]

theorem handleSql_get_some {p : String} (hsw : startsWithItems p = true) {id : Int}
    (hid : jsParseInt (seg2 p) = some id) (b : ReqBody) (q : SqlState) :
    handleSql { method := "GET", path := p, body := b } q
      = (match sqlSelectById q id with
         | some item => (.json 200 (itemToJson item), q)
         | none => (.json 404 (errJson "Item not found"), q)) := by
  have hne := startsWithItems_ne_items hsw
  unfold handleSql
  dsimp only
  rw [if_neg (by simp), if_neg (by simp [hne]), if_pos (by simp [hsw]), hid]

theorem handleSql_post (b : ReqBody) (q : SqlState) :
    handleSql { method := "POST", path := "/items", body := b } q
      = (match parseBody b with
         | .error _ => (.json 400 (errJson "Invalid JSON"), q)
         | .ok data =>
           let v := validateItemInput data
           if !v.isValid then
             (.json 400 (validationJson v.errors), q)
           else
             let n := jsTrim (fieldStr data "name")
             let d := jsTrim (fieldStr data "description")
             let res := sqlInsert q n d
             (.json 201 (itemToJson { id := res.1.id, name := n, description := d }),
              res.2)) := by
  unfold handleSql
  dsimp only
  rw [if_neg (by simp), if_neg (by simp), if_neg (by simp), if_pos (by simp)]

theorem handleSql_put_some {p : String} (hsw : startsWithItems p = true) {id : Int}
    (hid : jsParseInt (seg2 p) = some id) (b : ReqBody) (q : SqlState) :
    handleSql { method := "PUT", path := p, body := b } q
      = (match sqlSelectById q id with
         | none => (.json 404 (errJson "Item not found"), q)
         | some _ =>
           match parseBody b with
           | .error _ => (.json 400 (errJson "Invalid JSON"), q)
           | .ok data =>
             let v := validateItemInput data
             if !v.isValid then
               (.json 400 (validationJson v.errors), q)
             else
               let n := jsTrim (fieldStr data "name")
               let d := jsTrim (fieldStr data "description")
               (.json 200 (itemToJson { id := id, name := n, description := d }),
                sqlUpdate q id n d)) := by
  unfold handleSql
  dsimp only
  rw [if_neg (by simp), if_neg (by simp), if_neg (by simp), if_neg (by simp),
      if_pos (by simp [hsw]), hid]

theorem handleSql_delete_some {p : String} (hsw : startsWithItems p = true) {id : Int}
    (hid : jsParseInt (seg2 p) = some id) (b : ReqBody) (q : SqlState) :
    handleSql { method := "DELETE", path := p, body := b } q
      = (match sqlSelectById q id with
         | some item => (.json 200 (deletedJson item), sqlDeleteById q id)
         | none => (.json 404 (errJson "Item not found"), q)) := by
  unfold handleSql
  dsimp only
  rw [if_neg (by simp), if_neg (by simp), if_neg (by simp), if_neg (by simp),
      if_neg (by simp), if_pos (by simp [hsw]), hid]

/-- One step of the simulation: related states produce identical
responses and remain related. -/
theorem sim_step (r : Request) (s : MemState) (q : SqlState)
    (hrel : SimRel s q) (hgood : goodMem s) :
    (handleMem r s).1 = (handleSql r q).1 ∧ SimRel (handleMem r s).2 (handleSql r q).2 := by
  obtain ⟨hrows, hseq⟩ := hrel
  obtain ⟨hchain, hbound, hpos⟩ := hgood
  have hpw := pairwise_ne_of_chain' hchain
  obtain ⟨m, p, b⟩ := r
  by_cases h1 : m = "OPTIONS"
  · subst h1
    rw [handleMem_options, handleSql_options]
    exact ⟨rfl, hrows, hseq⟩
  by_cases hGET : m = "GET"
  · subst hGET
    by_cases hPI : p = "/items"
    · subst hPI
      rw [handleMem_get_all, handleSql_get_all]
      refine ⟨?_, hrows, hseq⟩
      rw [sqlSelectAll, hrows, sortById_eq_self hchain]
    · by_cases hsw : startsWithItems p = true
      · cases hid : jsParseInt (seg2 p) with
        | none =>
          rw [handleMem_id_parse_none (Or.inl rfl) hsw hid,
              handleSql_id_parse_none (Or.inl rfl) hsw hid]
          exact ⟨rfl, hrows, hseq⟩
        | some id =>
          rw [handleMem_get_some hsw hid, handleSql_get_some hsw hid,
              sqlSelectById, hrows]
          cases hf : s.items.find? (fun i => i.id == id) with
          | none => exact ⟨rfl, hrows, hseq⟩
          | some item => exact ⟨rfl, hrows, hseq⟩
      · rw [handleMem_default "GET" p b s (by decide) (by simp [hPI]) (by simp [hsw])
              (by simp) (by simp) (by simp),
            handleSql_default "GET" p b q (by decide) (by simp [hPI]) (by simp [hsw])
              (by simp) (by simp) (by simp)]
        exact ⟨rfl, hrows, hseq⟩
  by_cases hPOST : m = "POST"
  · subst hPOST
    by_cases hPI : p = "/items"
    · subst hPI
      rw [handleMem_post, handleSql_post]
      cases hpb : parseBody b with
      | error e => exact ⟨rfl, hrows, hseq⟩
      | ok data =>
        dsimp only
        by_cases hv : (validateItemInput data).isValid = true
        · have hb0 : (0 : Int) ≤ q.seq := by omega
          have hbnd : ∀ i ∈ q.rows, i.id ≤ q.seq := by
            intro i hi
            rw [hrows] at hi
            have := (hbound i hi).2
            omega
          have hnew : max q.seq (maxRowId q.rows) + 1 = s.nextId := by
            rw [max_eq_left (maxRowId_le hb0 hbnd)]
            omega
          simp only [hv, Bool.not_true, Bool.false_eq_true, if_false]
          dsimp only [sqlInsert]
          rw [hnew, hrows]
          refine ⟨rfl, rfl, ?_⟩
          show (s.nextId : Int) = s.nextId + 1 - 1
          omega
        · rw [Bool.not_eq_true] at hv
          simp only [hv, Bool.not_false, if_true]
          exact ⟨trivial, hrows, hseq⟩
    · rw [handleMem_default "POST" p b s (by decide) (by simp) (by simp)
            (by simp [hPI]) (by simp) (by simp),
          handleSql_default "POST" p b q (by decide) (by simp) (by simp)
            (by simp [hPI]) (by simp) (by simp)]
      exact ⟨rfl, hrows, hseq⟩
  by_cases hPUT : m = "PUT"
  · subst hPUT
    by_cases hsw : startsWithItems p = true
    · cases hid : jsParseInt (seg2 p) with
      | none =>
        rw [handleMem_id_parse_none (Or.inr (Or.inl rfl)) hsw hid,
            handleSql_id_parse_none (Or.inr (Or.inl rfl)) hsw hid]
        exact ⟨rfl, hrows, hseq⟩
      | some id =>
        rw [handleMem_put_some hsw hid, handleSql_put_some hsw hid,
            sqlSelectById, hrows]
        cases hf : s.items.find? (fun i => i.id == id) with
        | none =>
          rw [(findIdx?_none_iff (fun i => i.id == id) s.items).mpr hf]
          exact ⟨rfl, hrows, hseq⟩
        | some item =>
          cases hidx : s.items.findIdx? (fun i => i.id == id) with
          | none =>
            rw [(findIdx?_none_iff (fun i => i.id == id) s.items).mp hidx] at hf
            exact Option.noConfusion hf
          | some idx =>
            cases hpb : parseBody b with
            | error e => exact ⟨rfl, hrows, hseq⟩
            | ok data =>
              dsimp only
              by_cases hv : (validateItemInput data).isValid = true
              · simp only [hv, Bool.not_true, Bool.false_eq_true, if_false]
                dsimp only [sqlUpdate]
                refine ⟨trivial, ?_, hseq⟩
                rw [hrows,
                  set_of_findIdx? s.items id
                    { id := id, name := jsTrim (fieldStr data "name"),
                      description := jsTrim (fieldStr data "description") }
                    rfl hpw idx hidx]
              · rw [Bool.not_eq_true] at hv
                simp only [hv, Bool.not_false, if_true]
                exact ⟨trivial, hrows, hseq⟩
    · rw [handleMem_default "PUT" p b s (by decide) (by simp) (by simp)
            (by simp) (by simp [hsw]) (by simp),
          handleSql_default "PUT" p b q (by decide) (by simp) (by simp)
            (by simp) (by simp [hsw]) (by simp)]
      exact ⟨rfl, hrows, hseq⟩
  by_cases hDEL : m = "DELETE"
  · subst hDEL
    by_cases hsw : startsWithItems p = true
    · cases hid : jsParseInt (seg2 p) with
      | none =>
        rw [handleMem_id_parse_none (Or.inr (Or.inr rfl)) hsw hid,
            handleSql_id_parse_none (Or.inr (Or.inr rfl)) hsw hid]
        exact ⟨rfl, hrows, hseq⟩
      | some id =>
        rw [handleMem_delete_some hsw hid, handleSql_delete_some hsw hid,
            sqlSelectById, hrows]
        cases hf : s.items.find? (fun i => i.id == id) with
        | none =>
          rw [(findIdx?_none_iff (fun i => i.id == id) s.items).mpr hf]
          exact ⟨rfl, hrows, hseq⟩
        | some item =>
          cases hidx : s.items.findIdx? (fun i => i.id == id) with
          | none =>
            rw [(findIdx?_none_iff (fun i => i.id == id) s.items).mp hidx] at hf
            exact Option.noConfusion hf
          | some idx =>
            obtain ⟨a, hget, hfnd, hpa⟩ := findIdx?_some_spec _ _ idx hidx
            have ha : a = item := by
              rw [hf] at hfnd
              exact (Option.some_injective _ hfnd).symm
            subst ha
            have hpu : List.Pairwise
                (fun x y : Item => ((x.id == id) = true → (y.id == id) = false)) s.items := by
              refine hpw.imp ?_
              intro x y hxy hx
              have hx' : x.id = id := by simpa using hx
              rw [beq_eq_false_iff_ne]
              intro hy
              exact hxy (by rw [hx', hy])
            dsimp only [sqlDeleteById]
            rw [hget, eraseIdx_of_findIdx? _ _ idx hidx,
                eraseP_eq_filter_of_unique _ _ hpu, hrows]
            exact ⟨rfl, rfl, hseq⟩
    · rw [handleMem_default "DELETE" p b s (by decide) (by simp) (by simp)
            (by simp) (by simp) (by simp [hsw]),
          handleSql_default "DELETE" p b q (by decide) (by simp) (by simp)
            (by simp) (by simp) (by simp [hsw])]
      exact ⟨rfl, hrows, hseq⟩
  · rw [handleMem_default m p b s h1 (by simp [hGET]) (by simp [hGET])
          (by simp [hPOST]) (by simp [hPUT]) (by simp [hDEL]),
        handleSql_default m p b q h1 (by simp [hGET]) (by simp [hGET])
          (by simp [hPOST]) (by simp [hPUT]) (by simp [hDEL])]
    exact ⟨rfl, hrows, hseq⟩

theorem sim_trace (reqs : List Request) : ∀ s q, SimRel s q → goodMem s →
    traceMem s reqs = traceSql q reqs := by
  induction reqs with
  | nil => intro s q _ _; rfl
  | cons r rs ih =>
    intro s q hrel hgood
    obtain ⟨h1, h2⟩ := sim_step r s q hrel hgood
    rw [traceMem, traceSql, h1,
        ih (handleMem r s).2 (handleSql r q).2 h2 (goodMem_step r s hgood)]

/-- C3: starting from empty stores and assuming the database never
fails, the in-memory handler and the SQLite handler produce identical
response traces on every request sequence. -/
theorem claim_C3 (reqs : List Request) :
    traceMem memInit reqs = traceSql sqlInit reqs :=
  sim_trace reqs memInit sqlInit ⟨rfl, by decide⟩ goodMem_init

end ItemsServer
